import Mathlib

/-!
Verification of the riparr orchestration core: the marker-based persistent
job store (src/riparr/queue/markers.py), the job state machine
(src/riparr/core/job.py), the queue manager (src/riparr/queue/manager.py),
and the disc detection poller/watcher (src/riparr/detection/poller.py,
src/riparr/detection/watcher.py).

The Python code is shallowly embedded: the on-disk marker files for one
media file become a record of four optional marker contents (one per
suffix), the media root becomes a list of file entries, and each Python
method becomes a pure Lean function mirroring its branches.
-/

set_option maxHeartbeats 1000000

/-- Job status values of markers.py (`JobStatus` literal type); the four
marker suffixes .ready, .transcoding, .failed, .complete. Listed in the
insertion order of `MARKER_SUFFIXES`, which is the probe order used by
`get_status`. -/
inductive JStatus
  | ready
  | transcoding
  | failed
  | complete
deriving DecidableEq

/-- Values of the Python metadata dict `dict[str, str | int | None]`. -/
inductive MVal
  | s (v : String)
  | i (v : Int)
  | nil
deriving DecidableEq

/-- Metadata map stored inside a marker (insertion-ordered association list,
as a Python dict). -/
abbrev MetaMap := List (String × MVal)

/-- Structured content of one marker file, as written by
`MarkerManager.create_marker` (fields status, created_at, mkv_path, and the
optional metadata and error entries). Timestamps are abstracted to `Nat`. -/
structure MarkerData where
  status : JStatus
  created_at : Nat
  mkv_path : String
  metadata : Option MetaMap
  error : Option String
deriving DecidableEq

/-- Marker files that exist for one media file: at each of the four
suffixes, either no file or a parsed `MarkerData` content. -/
structure FileMarkers where
  ready : Option MarkerData
  transcoding : Option MarkerData
  failed : Option MarkerData
  complete : Option MarkerData
deriving DecidableEq

/-- State with no marker file for the media file. -/
def FileMarkers.empty : FileMarkers := ⟨none, none, none, none⟩

/-- Content of the marker file at the suffix of a given status. -/
def FileMarkers.get (fm : FileMarkers) : JStatus → Option MarkerData
  | JStatus.ready => fm.ready
  | JStatus.transcoding => fm.transcoding
  | JStatus.failed => fm.failed
  | JStatus.complete => fm.complete

/-- Write (or delete, with `none`) the marker file at the suffix of a
given status. -/
def FileMarkers.set (fm : FileMarkers) : JStatus → Option MarkerData → FileMarkers
  | JStatus.ready, d => { fm with ready := d }
  | JStatus.transcoding, d => { fm with transcoding := d }
  | JStatus.failed, d => { fm with failed := d }
  | JStatus.complete, d => { fm with complete := d }

/-- Number of marker files that exist for the media file. -/
def countMarkers (fm : FileMarkers) : Nat :=
  (if fm.ready.isSome then 1 else 0) + (if fm.transcoding.isSome then 1 else 0) +
    (if fm.failed.isSome then 1 else 0) + (if fm.complete.isSome then 1 else 0)

/-- Python truthiness applied to the optional metadata argument of
`create_marker`: the line `if metadata: marker_data["metadata"] = metadata`
stores the map only when it is a non-empty dict, so `None` and the empty
dict both end up as an absent metadata entry. -/
def storedMeta : Option MetaMap → Option MetaMap
  | none => none
  | some m => if m = [] then none else some m

/-- Python truthiness applied to the optional error argument of
`create_marker`: the line `if error: marker_data["error"] = error` stores
the error only when it is a non-empty string. -/
def storedErr : Option String → Option String
  | none => none
  | some e => if e = "" then none else some e

/-- MarkerManager.remove_markers: deletes every possible marker suffix for
the file unconditionally. -/
def removeMarkersF (_fm : FileMarkers) : FileMarkers := FileMarkers.empty

/-- MarkerManager.create_marker: first calls `remove_markers`, then writes
one marker file at the suffix of `st` whose content records the status,
the current time, the media path, and the truthy metadata/error values. -/
def createMarkerF (fm : FileMarkers) (path : String) (st : JStatus)
    (md : Option MetaMap) (er : Option String) (t : Nat) : FileMarkers :=
  (removeMarkersF fm).set st
    (some { status := st, created_at := t, mkv_path := path,
            metadata := storedMeta md, error := storedErr er })

/-- MarkerManager.get_status: probes the four suffixes in the insertion
order of `MARKER_SUFFIXES` (ready, transcoding, failed, complete) and
returns the status of the first marker file that exists, else `None`. -/
def getStatusF (fm : FileMarkers) : Option JStatus :=
  if fm.ready.isSome then some JStatus.ready
  else if fm.transcoding.isSome then some JStatus.transcoding
  else if fm.failed.isSome then some JStatus.failed
  else if fm.complete.isSome then some JStatus.complete
  else none

/-- Outcome of a Python call: a normal return value, or a raised
exception. Used to record that a method returns rather than raises. -/
inductive PyResult (α : Type)
  | ok (val : α)
  | raised (exc : String)
deriving DecidableEq

/-- MarkerManager.update_status: reads the current status; when no marker
exists it logs a warning and returns `None` (the body contains no raise;
the marker read is wrapped in try/except). Otherwise it reads the stored
metadata map from the current marker and calls `create_marker` with the
new status, that metadata, and the given error. The returned marker path
is abstracted to the new status. -/
def updateStatusF (fm : FileMarkers) (path : String) (newStatus : JStatus)
    (er : Option String) (t : Nat) : PyResult (Option JStatus) × FileMarkers :=
  match getStatusF fm with
  | none => (PyResult.ok none, fm)
  | some cur =>
    let md : Option MetaMap :=
      match fm.get cur with
      | some d => d.metadata
      | none => none
    (PyResult.ok (some newStatus), createMarkerF fm path newStatus md er t)

/-- Metadata map stored in the marker that `get_status` currently selects
(absent when no marker exists or the marker stores no metadata). -/
def currentMeta (fm : FileMarkers) : Option MetaMap :=
  match getStatusF fm with
  | some s =>
    match fm.get s with
    | some d => d.metadata
    | none => none
  | none => none

/-- Error string stored in the marker that `get_status` currently
selects. -/
def currentErr (fm : FileMarkers) : Option String :=
  match getStatusF fm with
  | some s =>
    match fm.get s with
    | some d => d.error
    | none => none
  | none => none

/-- One MarkerManager call on a single media file: `create_marker`,
`update_status`, or `remove_markers`, with the timestamp the call runs
at. -/
inductive MOp
  | mcreate (st : JStatus) (md : Option MetaMap) (er : Option String) (t : Nat)
  | mupdate (st : JStatus) (er : Option String) (t : Nat)
  | mremove
deriving DecidableEq

/-- Apply one MarkerManager call to the marker state of one file. -/
def applyMOp (path : String) (fm : FileMarkers) : MOp → FileMarkers
  | MOp.mcreate st md er t => createMarkerF fm path st md er t
  | MOp.mupdate st er t => (updateStatusF fm path st er t).2
  | MOp.mremove => removeMarkersF fm

/-- Apply a sequence of MarkerManager calls, oldest first, starting from a
given marker state. -/
def applyMOps (path : String) (ops : List MOp) (fm : FileMarkers) : FileMarkers :=
  ops.foldl (applyMOp path) fm

-- Basic lemmas about the single-file marker operations.

theorem countMarkers_empty : countMarkers FileMarkers.empty = 0 := rfl

theorem countMarkers_create (fm : FileMarkers) (path : String) (st : JStatus)
    (md : Option MetaMap) (er : Option String) (t : Nat) :
    countMarkers (createMarkerF fm path st md er t) = 1 := by
  cases st <;> rfl

theorem countMarkers_applyMOp (path : String) (fm : FileMarkers) (op : MOp)
    (h : countMarkers fm ≤ 1) : countMarkers (applyMOp path fm op) ≤ 1 := by
  cases op with
  | mcreate st md er t => simp [applyMOp, countMarkers_create]
  | mupdate st er t =>
    unfold applyMOp updateStatusF
    cases hg : getStatusF fm with
    | none => simpa using h
    | some cur => simp [countMarkers_create]
  | mremove => simp [applyMOp, removeMarkersF, countMarkers_empty]

/-- C1 (Marker exclusivity): after every sequence of MarkerManager calls
on one media file, starting from no marker, at most one marker suffix
exists, because every marker write first removes all existing markers. -/
theorem marker_exclusivity (path : String) (ops : List MOp) :
    countMarkers (applyMOps path ops FileMarkers.empty) ≤ 1 := by
  suffices h : ∀ fm, countMarkers fm ≤ 1 → countMarkers (applyMOps path ops fm) ≤ 1 by
    exact h FileMarkers.empty (by simp [countMarkers_empty])
  induction ops with
  | nil => intro fm h; simpa [applyMOps] using h
  | cons op rest ih =>
    intro fm h
    have h1 : countMarkers (applyMOp path fm op) ≤ 1 := countMarkers_applyMOp path fm op h
    simpa [applyMOps] using ih (applyMOp path fm op) h1

-- Reachability invariant: markers written by the manager never store an
-- empty metadata map, because create_marker only stores truthy metadata.

/-- Well-formedness of a marker state: every stored metadata map is
invariant under the truthiness normalisation of `create_marker` (in
particular no marker stores an empty map). -/
def goodFM (fm : FileMarkers) : Prop :=
  ∀ s d, fm.get s = some d → storedMeta d.metadata = d.metadata

theorem goodFM_empty : goodFM FileMarkers.empty := by
  intro s d h
  cases s <;> simp [FileMarkers.get, FileMarkers.empty] at h

theorem storedMeta_idem (md : Option MetaMap) : storedMeta (storedMeta md) = storedMeta md := by
  cases md with
  | none => rfl
  | some m =>
    by_cases h : m = [] <;> simp [storedMeta, h]

theorem goodFM_create (fm : FileMarkers) (path : String) (st : JStatus)
    (md : Option MetaMap) (er : Option String) (t : Nat) :
    goodFM (createMarkerF fm path st md er t) := by
  intro s d h
  cases st <;> cases s <;>
    simp [createMarkerF, removeMarkersF, FileMarkers.set, FileMarkers.get,
      FileMarkers.empty] at h <;>
    simp [← h, storedMeta_idem]

theorem goodFM_applyMOp (path : String) (fm : FileMarkers) (op : MOp)
    (h : goodFM fm) : goodFM (applyMOp path fm op) := by
  cases op with
  | mcreate st md er t => exact goodFM_create fm path st md er t
  | mupdate st er t =>
    unfold applyMOp updateStatusF
    cases hg : getStatusF fm with
    | none => simpa using h
    | some cur => exact goodFM_create fm path st _ er t
  | mremove => simpa [applyMOp, removeMarkersF] using goodFM_empty

theorem goodFM_reachable (path : String) (ops : List MOp) :
    goodFM (applyMOps path ops FileMarkers.empty) := by
  suffices h : ∀ fm, goodFM fm → goodFM (applyMOps path ops fm) from
    h FileMarkers.empty goodFM_empty
  induction ops with
  | nil => intro fm h; simpa [applyMOps] using h
  | cons op rest ih =>
    intro fm h
    simpa [applyMOps] using ih (applyMOp path fm op) (goodFM_applyMOp path fm op h)

theorem getStatusF_create (fm : FileMarkers) (path : String) (st : JStatus)
    (md : Option MetaMap) (er : Option String) (t : Nat) :
    getStatusF (createMarkerF fm path st md er t) = some st := by
  cases st <;> rfl

theorem get_of_getStatusF (fm : FileMarkers) (s : JStatus)
    (h : getStatusF fm = some s) : (fm.get s).isSome := by
  unfold getStatusF at h
  cases hr : fm.ready.isSome <;> cases ht : fm.transcoding.isSome <;>
    cases hf : fm.failed.isSome <;> cases hc : fm.complete.isSome <;>
    simp [hr, ht, hf, hc] at h <;>
    simp [FileMarkers.get, ← h, hr, ht, hf, hc]

theorem currentMeta_create (fm : FileMarkers) (path : String) (st : JStatus)
    (md : Option MetaMap) (er : Option String) (t : Nat) :
    currentMeta (createMarkerF fm path st md er t) = storedMeta md := by
  cases st <;> rfl

/-- C2 (Status round-trip): on every reachable marker state in which the
file has a marker, `update_status(f, S)` makes `get_status(f)` return `S`,
and the metadata map stored in the marker before the call is stored
unmodified in the marker after the call. -/
theorem status_round_trip (path : String) (ops : List MOp) (S : JStatus) (t : Nat)
    (h : getStatusF (applyMOps path ops FileMarkers.empty) ≠ none) :
    getStatusF (updateStatusF (applyMOps path ops FileMarkers.empty) path S none t).2 = some S ∧
      currentMeta (updateStatusF (applyMOps path ops FileMarkers.empty) path S none t).2 =
        currentMeta (applyMOps path ops FileMarkers.empty) := by
  set fm := applyMOps path ops FileMarkers.empty with hfm
  have hgood : goodFM fm := goodFM_reachable path ops
  cases hg : getStatusF fm with
  | none => exact absurd hg h
  | some cur =>
    have hget : (fm.get cur).isSome := get_of_getStatusF fm cur hg
    cases hd : fm.get cur with
    | none => simp [hd] at hget
    | some d =>
      constructor
      · simp [updateStatusF, hg, hd, getStatusF_create]
      · have h1 : currentMeta (updateStatusF fm path S none t).2 =
            storedMeta d.metadata := by
          simp [updateStatusF, hg, hd, currentMeta_create]
        have h2 : currentMeta fm = d.metadata := by
          simp [currentMeta, hg, hd]
        rw [h1, h2, hgood cur d hd]

/-- Witness for C2 at a concrete reachable state: create a ready marker
carrying a metadata map, then update to transcoding. -/
theorem status_round_trip_witness :
    getStatusF (updateStatusF
        (applyMOps "m.mkv" [MOp.mcreate JStatus.ready (some [("title", MVal.s "X")]) none 0]
          FileMarkers.empty) "m.mkv" JStatus.transcoding none 1).2 =
      some JStatus.transcoding ∧
    currentMeta (updateStatusF
        (applyMOps "m.mkv" [MOp.mcreate JStatus.ready (some [("title", MVal.s "X")]) none 0]
          FileMarkers.empty) "m.mkv" JStatus.transcoding none 1).2 =
      currentMeta (applyMOps "m.mkv"
        [MOp.mcreate JStatus.ready (some [("title", MVal.s "X")]) none 0] FileMarkers.empty) :=
  status_round_trip "m.mkv" [MOp.mcreate JStatus.ready (some [("title", MVal.s "X")]) none 0]
    JStatus.transcoding 1 (by decide)

/-- C3 counterexample: update_status on a file with no marker does not
raise NotFoundError. At the empty marker state it returns the normal
value `None` and leaves the state unchanged, creating no marker. -/
theorem update_without_marker_returns_none :
    updateStatusF FileMarkers.empty "movie.mkv" JStatus.ready none 0 =
      (PyResult.ok none, FileMarkers.empty) := rfl

/-- C3 amended: update_status on a file with no marker of any suffix
returns the normal value `None` as a silent no-op (it raises nothing) and
creates no marker file: the state is unchanged. -/
theorem update_without_marker_noop (fm : FileMarkers) (path : String)
    (S : JStatus) (er : Option String) (t : Nat) (h : getStatusF fm = none) :
    updateStatusF fm path S er t = (PyResult.ok none, fm) := by
  simp [updateStatusF, h]

/-- Witness for the amended C3 at the empty marker state. -/
theorem update_without_marker_noop_witness :
    updateStatusF FileMarkers.empty "a.mkv" JStatus.failed (some "e") 3 =
      (PyResult.ok none, FileMarkers.empty) :=
  update_without_marker_noop FileMarkers.empty "a.mkv" JStatus.failed (some "e") 3 (by decide)

-- Job state machine (src/riparr/core/job.py).

/-- Job status values of core/job.py (`JobStatus` enum). -/
inductive JobSt
  | pending
  | scanning
  | ripping
  | ripped
  | encoding
  | complete
  | failed
  | cancelled
deriving DecidableEq

/-- Error record appended by `Job.fail` (`JobError` model: message, stage,
timestamp, optional details). -/
structure JobErr where
  message : String
  stage : String
  timestamp : Nat
  details : Option String
deriving DecidableEq

/-- Fields of `Job` touched by the start/complete/fail/cancel operations.
The `progress` percentage only ever takes the written values 0 and 100 in
these operations and is modelled as a `Nat`. -/
structure JobM where
  status : JobSt
  started_at : Option Nat
  completed_at : Option Nat
  progress : Nat
  errors : List JobErr
deriving DecidableEq

/-- Freshly constructed Job: status PENDING, no started/completed
timestamps, progress 0, no errors. -/
def JobM.fresh : JobM :=
  { status := JobSt.pending, started_at := none, completed_at := none,
    progress := 0, errors := [] }

/-- `Job.is_terminal`: status is COMPLETE, FAILED or CANCELLED. -/
def jobIsTerminal (j : JobM) : Bool :=
  match j.status with
  | JobSt.complete => true
  | JobSt.failed => true
  | JobSt.cancelled => true
  | _ => false

/-- One of the four Job operations, with the time it runs at. -/
inductive JOp
  | jstart (t : Nat)
  | jcomplete (t : Nat)
  | jfail (msg stage : String) (t : Nat)
  | jcancel
deriving DecidableEq

/-- Apply one Job operation, mirroring job.py: `start` sets started_at and
status SCANNING; `complete` sets completed_at, status COMPLETE and
progress 100; `fail` sets status FAILED and appends a JobError without
touching completed_at; `cancel` sets status CANCELLED without touching
completed_at. -/
def applyJOp (j : JobM) : JOp → JobM
  | JOp.jstart t => { j with started_at := some t, status := JobSt.scanning }
  | JOp.jcomplete t =>
      { j with completed_at := some t, status := JobSt.complete, progress := 100 }
  | JOp.jfail msg stage t =>
      { j with status := JobSt.failed,
               errors := j.errors ++ [{ message := msg, stage := stage,
                                        timestamp := t, details := none }] }
  | JOp.jcancel => { j with status := JobSt.cancelled }

/-- Apply a sequence of Job operations, oldest first. -/
def applyJOps (ops : List JOp) (j : JobM) : JobM :=
  ops.foldl applyJOp j

/-- C4 counterexample: after the single operation `fail`, the Job status
is terminal (FAILED) but completed_at is still None, so completed_at being
set is not equivalent to the status being terminal. -/
theorem fail_terminal_without_completed_at :
    jobIsTerminal (applyJOps [JOp.jfail "boom" "processing" 1] JobM.fresh) = true ∧
      (applyJOps [JOp.jfail "boom" "processing" 1] JobM.fresh).completed_at = none := by
  constructor <;> rfl

theorem completedAt_foldl (ops : List JOp) (j : JobM) :
    (applyJOps ops j).completed_at.isSome = true ↔
      j.completed_at.isSome = true ∨ ∃ t, JOp.jcomplete t ∈ ops := by
  induction ops generalizing j with
  | nil => simp [applyJOps]
  | cons op rest ih =>
    have hstep : applyJOps (op :: rest) j = applyJOps rest (applyJOp j op) := rfl
    rw [hstep, ih]
    cases op with
    | jstart t => simp [applyJOp]
    | jcomplete t =>
      constructor
      · intro _; right; exact ⟨t, List.mem_cons_self _ _⟩
      · intro _; left; simp [applyJOp]
    | jfail msg stage t => simp [applyJOp]
    | jcancel => simp [applyJOp]

/-- C4 amended: for every sequence of start/complete/fail/cancel
operations on a fresh Job, completed_at is set if and only if a
`complete` call occurred in the sequence; `fail` and `cancel` make the
status terminal without setting completed_at. -/
theorem completed_at_iff_complete_called (ops : List JOp) :
    (applyJOps ops JobM.fresh).completed_at.isSome = true ↔
      ∃ t, JOp.jcomplete t ∈ ops := by
  rw [completedAt_foldl]
  simp [JobM.fresh]

-- Multi-file model of the media root (listing, retry, clear, recovery and
-- drain-loop operations of markers.py and queue/manager.py).

/-- Name of one file under the media root: stem and extension (Python
`Path.stem` / `Path.suffix`). -/
structure FName where
  stem : String
  ext : String
deriving DecidableEq

/-- Predicate for the rglob pattern `*.mkv` used by `list_jobs`. -/
def FName.isMkv (n : FName) : Bool := n.ext = ".mkv"

/-- Full file name as a path string. -/
def FName.path (n : FName) : String := n.stem ++ n.ext

/-- One media file that exists under the marker base directory: its name,
its size in bytes, and its marker files. -/
structure Entry where
  name : FName
  size : Nat
  markers : FileMarkers
deriving DecidableEq

/-- State of the media root: the media files `base_dir.rglob` can see,
in directory-walk order. -/
abbrev FS := List Entry

/-- Record built by `list_jobs` for one file (the JobInfo dataclass:
name is the stem, plus path, status, size, creation time, error and
metadata read from the marker). -/
structure JobRec where
  name : String
  fname : FName
  status : JStatus
  size_bytes : Nat
  created_at : Nat
  error : Option String
  metadata : Option MetaMap
deriving DecidableEq

/-- Body of the `list_jobs` loop for one file: the rglob pattern admits
only `*.mkv` names; a file with no marker is skipped; the status filter
(when given) is compared against the status; the record fields are read
from the marker content selected by `get_status`. -/
def jobOf (filter : Option JStatus) (e : Entry) : Option JobRec :=
  if e.name.isMkv then
    match getStatusF e.markers with
    | none => none
    | some st =>
      if (match filter with
          | some f => decide (st = f)
          | none => true) then
        match e.markers.get st with
        | some d =>
          some { name := e.name.stem, fname := e.name, status := st,
                 size_bytes := e.size, created_at := d.created_at,
                 error := d.error, metadata := d.metadata }
        | none => none
      else none
  else none

/-- MarkerManager.list_jobs: build one record per `*.mkv` file carrying a
marker, then sort ascending by creation time (a stable sort, as Python
`list.sort`). -/
def listJobs (fs : FS) (filter : Option JStatus) : List JobRec :=
  List.insertionSort (fun a b => a.created_at ≤ b.created_at) (fs.filterMap (jobOf filter))

/-- MarkerManager.get_next_ready: first element of `list_jobs("ready")`,
or none. -/
def getNextReady (fs : FS) : Option JobRec :=
  (listJobs fs (some JStatus.ready)).head?

/-- Apply an edit to the entry with the given file name; marker operations
are keyed by the media file path, so other entries are untouched. -/
def editFS (fs : FS) (n : FName) (g : Entry → Entry) : FS :=
  fs.map (fun e => if e.name = n then g e else e)

/-- MarkerManager.update_status lifted to the media root, applied to the
file named `n`. -/
def updateFS (fs : FS) (n : FName) (st : JStatus) (er : Option String) (t : Nat) : FS :=
  editFS fs n (fun e => { e with markers := (updateStatusF e.markers n.path st er t).2 })

/-- MarkerManager.create_marker lifted to the media root. -/
def createMarkerFS (fs : FS) (n : FName) (st : JStatus)
    (md : Option MetaMap) (er : Option String) (t : Nat) : FS :=
  editFS fs n (fun e => { e with markers := createMarkerF e.markers n.path st md er t })

/-- MarkerManager.remove_markers lifted to the media root. -/
def removeMarkersFS (fs : FS) (n : FName) : FS :=
  editFS fs n (fun e => { e with markers := removeMarkersF e.markers })

/-- MarkerManager.get_status of the file named `n`. -/
def getStatusFS (fs : FS) (n : FName) : Option JStatus :=
  match fs.find? (fun e => decide (e.name = n)) with
  | some e => getStatusF e.markers
  | none => none

/-- Error string stored in the current marker of the file named `n`. -/
def errAtFS (fs : FS) (n : FName) : Option String :=
  match fs.find? (fun e => decide (e.name = n)) with
  | some e => currentErr e.markers
  | none => none

/-- Loop body of MarkerManager.retry_job: walk the failed jobs in listing
order; on the first record whose name (stem) matches, transition it to
ready and return True; if none matches return False. -/
def retryGo (fs : FS) (t : Nat) (nm : String) : List JobRec → Bool × FS
  | [] => (false, fs)
  | j :: rest =>
    if j.name = nm then (true, updateFS fs j.fname JStatus.ready none t)
    else retryGo fs t nm rest

/-- MarkerManager.retry_job. -/
def retryJob (fs : FS) (nm : String) (t : Nat) : Bool × FS :=
  retryGo fs t nm (listJobs fs (some JStatus.failed))

/-- MarkerManager.retry_all_failed: transition every failed job to ready,
returning how many were transitioned. -/
def retryAllFailed (fs : FS) (t : Nat) : Nat × FS :=
  let js := listJobs fs (some JStatus.failed)
  (js.length, js.foldl (fun s j => updateFS s j.fname JStatus.ready none t) fs)

/-- MarkerManager.clear_jobs: remove the markers (not the media files) of
every matching job, returning the count. -/
def clearJobs (fs : FS) (filter : Option JStatus) : Nat × FS :=
  let js := listJobs fs filter
  (js.length, js.foldl (fun s j => removeMarkersFS s j.fname) fs)

/-- QueueManager.recover_interrupted: list the jobs in transcoding state,
transition each to ready, and return the count. -/
def recoverInterrupted (fs : FS) (t : Nat) : Nat × FS :=
  let js := listJobs fs (some JStatus.transcoding)
  (js.length, js.foldl (fun s j => updateFS s j.fname JStatus.ready none t) fs)

/-- QueueManager._cleanup_raw_file: delete the raw media file, remove its
markers, and remove the parent directory when it became empty; the entry
disappears from the media root. -/
def cleanupRawFile (fs : FS) (n : FName) : FS :=
  fs.filter (fun e => !(decide (e.name = n)))

/-- Outcome of the encode invocation inside the drain loop (the body of
the per-file try block): a normal return, or a raised exception with its
message text (for example a non-zero subprocess exit). -/
inductive EncodeOutcome
  | ok
  | raised (msg : String)
deriving DecidableEq

/-- Observable result of one drain-loop iteration: the new media-root
state, whether raw-file cleanup ran, and whether the while loop proceeds
to its next iteration. -/
structure DrainStep where
  fs : FS
  cleanupRan : Bool
  loopGoesOn : Bool
deriving DecidableEq

/-- One iteration of QueueManager.process_queue: take the next ready job
(if none, sleep and go round again); transition its marker to
transcoding; run the try block around the encode. On success transition
the marker to complete and, when raw-deletion is configured, run
_cleanup_raw_file. On a raised exception the except branch transitions
the marker to failed with the exception text and falls through, so the
loop itself goes on in every branch. -/
def processQueueStep (deleteRaw : Bool) (fs : FS) (outcome : EncodeOutcome)
    (t : Nat) : DrainStep :=
  match getNextReady fs with
  | none => { fs := fs, cleanupRan := false, loopGoesOn := true }
  | some j =>
    let fs1 := updateFS fs j.fname JStatus.transcoding none t
    match outcome with
    | EncodeOutcome.ok =>
      let fs2 := updateFS fs1 j.fname JStatus.complete none t
      if deleteRaw then
        { fs := cleanupRawFile fs2 j.fname, cleanupRan := true, loopGoesOn := true }
      else
        { fs := fs2, cleanupRan := false, loopGoesOn := true }
    | EncodeOutcome.raised e =>
      { fs := updateFS fs1 j.fname JStatus.failed (some e) t,
        cleanupRan := false, loopGoesOn := true }

-- Helper lemmas about the media-root model.

theorem mem_of_head?_eq {α : Type} (l : List α) (a : α) (h : l.head? = some a) : a ∈ l := by
  cases l with
  | nil => simp at h
  | cons x xs =>
    simp at h
    simp [h]

theorem getStatusF_update_of_some {fm : FileMarkers} {cur : JStatus} (path : String)
    (st : JStatus) (er : Option String) (t : Nat) (h : getStatusF fm = some cur) :
    getStatusF (updateStatusF fm path st er t).2 = some st := by
  simp [updateStatusF, h, getStatusF_create]

theorem currentErr_create (fm : FileMarkers) (path : String) (st : JStatus)
    (md : Option MetaMap) (er : Option String) (t : Nat) :
    currentErr (createMarkerF fm path st md er t) = storedErr er := by
  cases st <;> rfl

theorem currentErr_update_of_some {fm : FileMarkers} {cur : JStatus} (path : String)
    (st : JStatus) (er : Option String) (t : Nat) (h : getStatusF fm = some cur) :
    currentErr (updateStatusF fm path st er t).2 = storedErr er := by
  simp [updateStatusF, h, currentErr_create]

theorem jobOf_some {filter : Option JStatus} {e : Entry} {j : JobRec}
    (h : jobOf filter e = some j) :
    j.fname = e.name ∧ e.name.isMkv = true ∧ getStatusF e.markers = some j.status ∧
      (∀ f, filter = some f → j.status = f) := by
  by_cases hm : e.name.isMkv = true
  · cases hg : getStatusF e.markers with
    | none => simp [jobOf, hm, hg] at h
    | some st =>
      cases hd : e.markers.get st with
      | none => simp [jobOf, hm, hg, hd] at h
      | some d =>
        cases filter with
        | none =>
          simp only [jobOf, hm, if_true, hg, hd] at h
          simp only [decide_True, if_true, Option.some.injEq] at h
          subst h
          exact ⟨rfl, hm, rfl, fun f hfil => by cases hfil⟩
        | some f0 =>
          by_cases hst : st = f0
          · subst hst
            simp only [jobOf, hm, if_true, hg, hd, decide_True, if_true,
              Option.some.injEq] at h
            subst h
            exact ⟨rfl, hm, rfl, fun f hfil => by cases hfil; rfl⟩
          · simp [jobOf, hm, hg, hd, hst] at h
  · simp [jobOf, hm] at h

theorem jobOf_mk {f : JStatus} {e : Entry} {d : MarkerData}
    (hm : e.name.isMkv = true) (hg : getStatusF e.markers = some f)
    (hd : e.markers.get f = some d) :
    jobOf (some f) e =
      some { name := e.name.stem, fname := e.name, status := f, size_bytes := e.size,
             created_at := d.created_at, error := d.error, metadata := d.metadata } := by
  simp [jobOf, hm, hg, hd]

theorem mem_listJobs {fs : FS} {filter : Option JStatus} {j : JobRec} :
    j ∈ listJobs fs filter ↔ ∃ e, e ∈ fs ∧ jobOf filter e = some j := by
  unfold listJobs
  rw [List.mem_insertionSort, List.mem_filterMap]

theorem jobOf_isSome_iff {f : JStatus} {e : Entry} :
    (jobOf (some f) e).isSome = true ↔
      (e.name.isMkv = true ∧ getStatusF e.markers = some f) := by
  constructor
  · intro h
    cases hj : jobOf (some f) e with
    | none => simp [hj] at h
    | some j =>
      obtain ⟨_, hm, hg, hfil⟩ := jobOf_some hj
      exact ⟨hm, by rw [hg, hfil f rfl]⟩
  · rintro ⟨hm, hg⟩
    have hd := get_of_getStatusF e.markers f hg
    cases hdd : e.markers.get f with
    | none => simp [hdd] at hd
    | some d => simp [jobOf_mk hm hg hdd]

theorem find?_of_nodup_mem {fs : FS} {e : Entry}
    (hnd : (fs.map (fun x => x.name)).Nodup) (he : e ∈ fs) :
    fs.find? (fun x => decide (x.name = e.name)) = some e := by
  induction fs with
  | nil => simp at he
  | cons a fs ih =>
    simp only [List.map_cons, List.nodup_cons] at hnd
    obtain ⟨hna, hndtl⟩ := hnd
    rcases List.mem_cons.mp he with rfl | hmem
    · simp [List.find?]
    · have hne : ¬(a.name = e.name) := by
        intro hEq
        exact hna (hEq ▸ List.mem_map_of_mem (fun x => x.name) hmem)
      have hd : decide (a.name = e.name) = false := by simpa using hne
      simp only [List.find?, hd]
      exact ih hndtl hmem

theorem entry_eq_of_name_eq {fs : FS} {e1 e2 : Entry}
    (hnd : (fs.map (fun x => x.name)).Nodup)
    (h1 : e1 ∈ fs) (h2 : e2 ∈ fs) (hn : e1.name = e2.name) : e1 = e2 := by
  have f1 := find?_of_nodup_mem hnd h1
  have f2 := find?_of_nodup_mem hnd h2
  rw [hn] at f1
  exact Option.some.inj (f1.symm.trans f2)

theorem editFS_cons (a : Entry) (fs : FS) (n : FName) (g : Entry → Entry) :
    editFS (a :: fs) n g = (if a.name = n then g a else a) :: editFS fs n g := by
  simp [editFS]

theorem find?_editFS_self (fs : FS) (n : FName) (g : Entry → Entry)
    (hg : ∀ e, (g e).name = e.name) :
    (editFS fs n g).find? (fun e => decide (e.name = n)) =
      (fs.find? (fun e => decide (e.name = n))).map g := by
  induction fs with
  | nil => rfl
  | cons a fs ih =>
    rw [editFS_cons]
    by_cases h : a.name = n
    · rw [if_pos h]
      have h1 : decide ((g a).name = n) = true := by simp [hg a, h]
      have h2 : decide (a.name = n) = true := by simp [h]
      simp only [List.find?, h1, h2, Option.map_some']
    · rw [if_neg h]
      have hd : decide (a.name = n) = false := by simpa using h
      simp only [List.find?, hd]
      exact ih

theorem find?_editFS_ne (fs : FS) (n m : FName) (g : Entry → Entry)
    (hg : ∀ e, (g e).name = e.name) (hne : m ≠ n) :
    (editFS fs n g).find? (fun e => decide (e.name = m)) =
      fs.find? (fun e => decide (e.name = m)) := by
  induction fs with
  | nil => rfl
  | cons a fs ih =>
    rw [editFS_cons]
    by_cases h : a.name = n
    · have hanm : ¬(a.name = m) := fun hEq => hne (by rw [← hEq, h])
      have h1 : decide ((if a.name = n then g a else a).name = m) = false := by
        rw [if_pos h, hg a]
        simpa using hanm
      have h2 : decide (a.name = m) = false := by simpa using hanm
      simp only [List.find?, h1, h2]
      exact ih
    · rw [if_neg h]
      simp only [List.find?]
      cases hd : decide (a.name = m) with
      | true => rfl
      | false => exact ih

theorem editFS_names (fs : FS) (n : FName) (g : Entry → Entry)
    (hg : ∀ e, (g e).name = e.name) :
    (editFS fs n g).map (fun e => e.name) = fs.map (fun e => e.name) := by
  unfold editFS
  rw [List.map_map]
  apply List.map_congr_left
  intro e _
  by_cases h : e.name = n <;> simp [h, hg]

theorem find?_foldl_update_ne (js : List JobRec) (fs : FS) (m : FName)
    (st : JStatus) (er : Option String) (t : Nat)
    (h : ∀ j ∈ js, j.fname ≠ m) :
    (js.foldl (fun s j => updateFS s j.fname st er t) fs).find?
        (fun e => decide (e.name = m)) =
      fs.find? (fun e => decide (e.name = m)) := by
  induction js generalizing fs with
  | nil => rfl
  | cons j js ih =>
    have hj : j.fname ≠ m := h j (List.mem_cons_self _ _)
    have hrest : ∀ x ∈ js, x.fname ≠ m := fun x hx => h x (List.mem_cons_of_mem _ hx)
    simp only [List.foldl_cons]
    rw [ih _ hrest]
    exact find?_editFS_ne fs j.fname m _ (fun e => rfl) (Ne.symm hj)

theorem find?_foldl_clear_ne (js : List JobRec) (fs : FS) (m : FName)
    (h : ∀ j ∈ js, j.fname ≠ m) :
    (js.foldl (fun s j => removeMarkersFS s j.fname) fs).find?
        (fun e => decide (e.name = m)) =
      fs.find? (fun e => decide (e.name = m)) := by
  induction js generalizing fs with
  | nil => rfl
  | cons j js ih =>
    have hj : j.fname ≠ m := h j (List.mem_cons_self _ _)
    have hrest : ∀ x ∈ js, x.fname ≠ m := fun x hx => h x (List.mem_cons_of_mem _ hx)
    simp only [List.foldl_cons]
    rw [ih _ hrest]
    exact find?_editFS_ne fs j.fname m _ (fun e => rfl) (Ne.symm hj)

theorem find?_retryGo_ne (fs : FS) (t : Nat) (nm : String) (js : List JobRec) (m : FName)
    (h : ∀ j ∈ js, j.fname ≠ m) :
    ((retryGo fs t nm js).2).find? (fun e => decide (e.name = m)) =
      fs.find? (fun e => decide (e.name = m)) := by
  induction js with
  | nil => rfl
  | cons j js ih =>
    have hj : j.fname ≠ m := h j (List.mem_cons_self _ _)
    have hrest : ∀ x ∈ js, x.fname ≠ m := fun x hx => h x (List.mem_cons_of_mem _ hx)
    by_cases hnm : j.name = nm
    · simp only [retryGo, hnm, if_true]
      exact find?_editFS_ne fs j.fname m _ (fun e => rfl) (Ne.symm hj)
    · simp only [retryGo, hnm, if_false]
      exact ih hrest

theorem names_foldl_update (js : List JobRec) (fs : FS)
    (st : JStatus) (er : Option String) (t : Nat) :
    (js.foldl (fun s j => updateFS s j.fname st er t) fs).map (fun e => e.name) =
      fs.map (fun e => e.name) := by
  induction js generalizing fs with
  | nil => rfl
  | cons j js ih =>
    simp only [List.foldl_cons]
    rw [ih]
    exact editFS_names fs j.fname _ (fun e => rfl)

theorem filterMap_jobOf_sublist (fs : FS) (filter : Option JStatus) :
    ((fs.filterMap (jobOf filter)).map (fun j => j.fname)).Sublist
      (fs.map (fun e => e.name)) := by
  induction fs with
  | nil => simp
  | cons e fs ih =>
    cases hj : jobOf filter e with
    | none =>
      simp only [List.filterMap_cons, hj, List.map_cons]
      exact ih.cons e.name
    | some j =>
      have hn : j.fname = e.name := (jobOf_some hj).1
      simp only [List.filterMap_cons, hj, List.map_cons, hn]
      exact ih.cons₂ e.name

theorem listJobs_fnames_nodup {fs : FS} {filter : Option JStatus}
    (hnd : (fs.map (fun e => e.name)).Nodup) :
    ((listJobs fs filter).map (fun j => j.fname)).Nodup := by
  have hperm : (listJobs fs filter).Perm (fs.filterMap (jobOf filter)) :=
    List.perm_insertionSort _ _
  have h2 : ((fs.filterMap (jobOf filter)).map (fun j => j.fname)).Nodup :=
    (filterMap_jobOf_sublist fs filter).nodup hnd
  exact ((hperm.map (fun j => j.fname)).symm).nodup h2

theorem length_filterMap_eq_countP {α β : Type} (h : α → Option β) (l : List α) :
    (l.filterMap h).length = l.countP (fun a => (h a).isSome) := by
  induction l with
  | nil => rfl
  | cons a l ih =>
    cases ha : h a <;> simp [List.filterMap_cons, ha, List.countP_cons, ih]

theorem listJobs_length (fs : FS) (filter : Option JStatus) :
    (listJobs fs filter).length = fs.countP (fun e => (jobOf filter e).isSome) := by
  unfold listJobs
  rw [List.length_insertionSort]
  exact length_filterMap_eq_countP (jobOf filter) fs

theorem find?_updateFS_self (fs : FS) (n : FName) (st : JStatus)
    (er : Option String) (t : Nat) :
    (updateFS fs n st er t).find? (fun e => decide (e.name = n)) =
      (fs.find? (fun e => decide (e.name = n))).map
        (fun e => { e with markers := (updateStatusF e.markers n.path st er t).2 }) :=
  find?_editFS_self fs n _ (fun _e => rfl)

theorem recover_char (fs : FS) (t : Nat)
    (hnd : (fs.map (fun e => e.name)).Nodup) (e : Entry) (he : e ∈ fs) :
    (recoverInterrupted fs t).2.find? (fun x => decide (x.name = e.name)) =
      some (if e.name.isMkv = true ∧ getStatusF e.markers = some JStatus.transcoding
            then { e with markers :=
                    (updateStatusF e.markers e.name.path JStatus.ready none t).2 }
            else e) := by
  by_cases hcond : e.name.isMkv = true ∧ getStatusF e.markers = some JStatus.transcoding
  · obtain ⟨hmkv, htr⟩ := hcond
    have hdopt := get_of_getStatusF e.markers JStatus.transcoding htr
    cases hdd : e.markers.get JStatus.transcoding with
    | none => rw [hdd] at hdopt; simp at hdopt
    | some d =>
      obtain ⟨j, hmem, hjf⟩ :
          ∃ j ∈ listJobs fs (some JStatus.transcoding), j.fname = e.name :=
        ⟨_, mem_listJobs.mpr ⟨e, he, jobOf_mk hmkv htr hdd⟩, rfl⟩
      obtain ⟨l1, l2, hsplit⟩ := List.append_of_mem hmem
      have hndjs := @listJobs_fnames_nodup fs (some JStatus.transcoding) hnd
      rw [hsplit] at hndjs
      simp only [List.map_append, List.map_cons, List.nodup_append,
        List.nodup_cons] at hndjs
      obtain ⟨hnd1, ⟨hj2, hnd2⟩, hdisj⟩ := hndjs
      have hl1 : ∀ x ∈ l1, x.fname ≠ e.name := by
        intro x hx hEq
        have hEq2 : x.fname = j.fname := by rw [hEq, hjf]
        have hx1 : j.fname ∈ l1.map (fun y => y.fname) :=
          hEq2 ▸ List.mem_map_of_mem _ hx
        exact hdisj hx1 (List.mem_cons_self _ _)
      have hl2 : ∀ x ∈ l2, x.fname ≠ e.name := by
        intro x hx hEq
        have hEq2 : j.fname = x.fname := by rw [hEq, hjf]
        exact hj2 (hEq2 ▸ List.mem_map_of_mem (fun y => y.fname) hx)
      have hstep : (recoverInterrupted fs t).2 =
          l2.foldl (fun s j2 => updateFS s j2.fname JStatus.ready none t)
            (updateFS (l1.foldl (fun s j2 => updateFS s j2.fname JStatus.ready none t) fs)
              j.fname JStatus.ready none t) := by
        show (listJobs fs (some JStatus.transcoding)).foldl
            (fun s j2 => updateFS s j2.fname JStatus.ready none t) fs = _
        rw [hsplit, List.foldl_append, List.foldl_cons]
      rw [hstep, find?_foldl_update_ne _ _ _ _ _ _ hl2, hjf, find?_updateFS_self,
        find?_foldl_update_ne _ _ _ _ _ _ hl1, find?_of_nodup_mem hnd he,
        Option.map_some']
      rw [if_pos ⟨hmkv, htr⟩]
  · have hall : ∀ x ∈ listJobs fs (some JStatus.transcoding), x.fname ≠ e.name := by
      intro x hx hEq
      obtain ⟨e2, he2, hjo2⟩ := mem_listJobs.mp hx
      obtain ⟨hfn2, hm2, hg2, hfil2⟩ := jobOf_some hjo2
      have hne : e2.name = e.name := by rw [← hfn2]; exact hEq
      have he2e : e2 = e := entry_eq_of_name_eq hnd he2 he hne
      subst he2e
      exact hcond ⟨hm2, by rw [hg2, hfil2 JStatus.transcoding rfl]⟩
    have hstep : (recoverInterrupted fs t).2 =
        (listJobs fs (some JStatus.transcoding)).foldl
          (fun s j2 => updateFS s j2.fname JStatus.ready none t) fs := rfl
    rw [hstep, find?_foldl_update_ne _ _ _ _ _ _ hall, find?_of_nodup_mem hnd he,
      if_neg hcond]

theorem recover_count (fs : FS) (t : Nat) :
    (recoverInterrupted fs t).1 =
      fs.countP (fun e => e.name.isMkv &&
        decide (getStatusF e.markers = some JStatus.transcoding)) := by
  show (listJobs fs (some JStatus.transcoding)).length = _
  rw [listJobs_length]
  apply List.countP_congr
  intro e _
  rw [jobOf_isSome_iff]
  simp [Bool.and_eq_true]

/-- Concrete marker-file set holding exactly one transcoding marker, for
use in concrete evaluations. -/
def tMarker (p : String) (t : Nat) : FileMarkers :=
  { ready := none,
    transcoding := some { status := JStatus.transcoding, created_at := t,
                          mkv_path := p, metadata := none, error := none },
    failed := none, complete := none }

/-- Concrete marker-file set holding exactly one ready marker. -/
def rMarker (p : String) (t : Nat) : FileMarkers :=
  { ready := some { status := JStatus.ready, created_at := t,
                    mkv_path := p, metadata := none, error := none },
    transcoding := none, failed := none, complete := none }

/-- Concrete media file with a non-mkv extension whose marker is in
transcoding state. -/
def aviEntry : Entry :=
  { name := { stem := "movie", ext := ".avi" }, size := 100,
    markers := tMarker "movie.avi" 0 }

/-- Concrete mkv media file whose marker is in transcoding state. -/
def mkvTransEntry : Entry :=
  { name := { stem := "a", ext := ".mkv" }, size := 7, markers := tMarker "a.mkv" 2 }

/-- C5 counterexample: a media root holding one file `movie.avi` whose
marker is in transcoding state. The rglob pattern of list_jobs only
matches `*.mkv`, so recover_interrupted reports zero recovered jobs and
the file is still in transcoding state afterwards, although the claim
requires it to be ready and the count to be 1. -/
theorem recover_misses_non_mkv :
    (recoverInterrupted [aviEntry] 5).1 = 0 ∧
      getStatusFS (recoverInterrupted [aviEntry] 5).2 { stem := "movie", ext := ".avi" } =
        some JStatus.transcoding := by
  constructor <;> rfl

/-- C5 amended: after recover_interrupted, every `*.mkv` file under the
base directory whose marker was in transcoding state has a ready marker,
no `*.mkv` file remains in transcoding state, every other entry (other
states and non-mkv files, which the `*.mkv` scan cannot see) is unchanged,
and the returned count equals the number of `*.mkv` files that were in
transcoding state. -/
theorem recover_interrupted_spec (fs : FS) (t : Nat)
    (hnd : (fs.map (fun e => e.name)).Nodup) :
    (∀ e ∈ fs, e.name.isMkv = true → getStatusF e.markers = some JStatus.transcoding →
        getStatusFS (recoverInterrupted fs t).2 e.name = some JStatus.ready) ∧
    (∀ e ∈ fs, (e.name.isMkv = true → getStatusF e.markers ≠ some JStatus.transcoding) →
        (recoverInterrupted fs t).2.find? (fun x => decide (x.name = e.name)) = some e) ∧
    (∀ e2 ∈ (recoverInterrupted fs t).2, e2.name.isMkv = true →
        getStatusF e2.markers ≠ some JStatus.transcoding) ∧
    (recoverInterrupted fs t).1 =
      fs.countP (fun e => e.name.isMkv &&
        decide (getStatusF e.markers = some JStatus.transcoding)) := by
  refine ⟨?_, ?_, ?_, recover_count fs t⟩
  · intro e he hmkv htr
    have hchar := recover_char fs t hnd e he
    rw [if_pos ⟨hmkv, htr⟩] at hchar
    unfold getStatusFS
    rw [hchar]
    exact getStatusF_update_of_some e.name.path JStatus.ready none t htr
  · intro e he himp
    have hchar := recover_char fs t hnd e he
    rw [if_neg (fun hc => himp hc.1 hc.2)] at hchar
    exact hchar
  · intro e2 he2 hm2
    have hnames : (recoverInterrupted fs t).2.map (fun e => e.name) =
        fs.map (fun e => e.name) :=
      names_foldl_update (listJobs fs (some JStatus.transcoding)) fs JStatus.ready none t
    have hnd' : ((recoverInterrupted fs t).2.map (fun e => e.name)).Nodup := by
      rw [hnames]; exact hnd
    have hf2 : (recoverInterrupted fs t).2.find? (fun x => decide (x.name = e2.name)) =
        some e2 := find?_of_nodup_mem hnd' he2
    have hn2 : e2.name ∈ fs.map (fun e => e.name) := by
      rw [← hnames]
      exact List.mem_map_of_mem _ he2
    obtain ⟨e, he, hEq⟩ := List.mem_map.mp hn2
    have hchar := recover_char fs t hnd e he
    rw [← hEq] at hf2
    have he2eq : e2 =
        (if e.name.isMkv = true ∧ getStatusF e.markers = some JStatus.transcoding
         then { e with markers :=
                 (updateStatusF e.markers e.name.path JStatus.ready none t).2 }
         else e) := Option.some.inj (hf2.symm.trans hchar)
    by_cases hc : e.name.isMkv = true ∧ getStatusF e.markers = some JStatus.transcoding
    · rw [if_pos hc] at he2eq
      rw [he2eq]
      have hready := getStatusF_update_of_some
        e.name.path JStatus.ready none t hc.2
      intro hcon
      rw [show ({ e with markers :=
            (updateStatusF e.markers e.name.path JStatus.ready none t).2 } : Entry).markers =
          (updateStatusF e.markers e.name.path JStatus.ready none t).2 from rfl] at hcon
      rw [hready] at hcon
      cases hcon
    · rw [if_neg hc] at he2eq
      rw [he2eq] at hm2 ⊢
      intro hcon
      exact hc ⟨hm2, hcon⟩

/-- Witness for the amended C5 at a one-file media root whose mkv file is
in transcoding state. -/
theorem recover_interrupted_spec_witness :
    getStatusFS (recoverInterrupted [mkvTransEntry] 9).2 { stem := "a", ext := ".mkv" } =
      some JStatus.ready :=
  (recover_interrupted_spec [mkvTransEntry] 9 (by decide)).1 mkvTransEntry
    (by decide) (by decide) (by decide)

/-- Concrete mkv media file whose marker is in ready state. -/
def xEntry : Entry :=
  { name := { stem := "X", ext := ".mkv" }, size := 10, markers := rMarker "X.mkv" 1 }

/-- C8 counterexample: when the encode raises an exception whose text is
the empty string, the except branch still transitions the marker to
failed, but `create_marker` only stores a truthy error, so the marker
records no error at all instead of the raised text. -/
theorem drain_failure_empty_error :
    getStatusFS (processQueueStep false [xEntry] (EncodeOutcome.raised "") 7).fs
        { stem := "X", ext := ".mkv" } = some JStatus.failed ∧
      errAtFS (processQueueStep false [xEntry] (EncodeOutcome.raised "") 7).fs
        { stem := "X", ext := ".mkv" } = none := by
  constructor <;> rfl

/-- C8 amended: for the queued file picked by the drain loop, when the
encode invocation raises with non-empty text, the marker transitions to
failed with the raised text stored as the marker error (an empty text is
stored as no error), raw-file cleanup does not run, the media file entry
remains in the media root, and the drain loop goes on. -/
theorem drain_encode_failure (deleteRaw : Bool) (fs : FS) (t : Nat) (msg : String)
    (j : JobRec) (hnd : (fs.map (fun e => e.name)).Nodup)
    (hj : getNextReady fs = some j) (hmsg : msg ≠ "") :
    getStatusFS (processQueueStep deleteRaw fs (EncodeOutcome.raised msg) t).fs j.fname =
        some JStatus.failed ∧
      errAtFS (processQueueStep deleteRaw fs (EncodeOutcome.raised msg) t).fs j.fname =
        some msg ∧
      (processQueueStep deleteRaw fs (EncodeOutcome.raised msg) t).cleanupRan = false ∧
      (∃ e2 ∈ (processQueueStep deleteRaw fs (EncodeOutcome.raised msg) t).fs,
        e2.name = j.fname) ∧
      (processQueueStep deleteRaw fs (EncodeOutcome.raised msg) t).loopGoesOn = true := by
  obtain ⟨e0, he0, hjo⟩ := mem_listJobs.mp (mem_of_head?_eq _ _ hj)
  obtain ⟨hfn, hmkv, hst, hfil⟩ := jobOf_some hjo
  have hready : getStatusF e0.markers = some JStatus.ready := by
    rw [hst, hfil JStatus.ready rfl]
  have hres : processQueueStep deleteRaw fs (EncodeOutcome.raised msg) t =
      { fs := updateFS (updateFS fs j.fname JStatus.transcoding none t) j.fname
                JStatus.failed (some msg) t,
        cleanupRan := false, loopGoesOn := true } := by
    unfold processQueueStep
    rw [hj]
  rw [hres]
  have hfind0 : fs.find? (fun x => decide (x.name = j.fname)) = some e0 := by
    rw [hfn]
    exact find?_of_nodup_mem hnd he0
  have hfind1 := find?_updateFS_self fs j.fname JStatus.transcoding none t
  rw [hfind0, Option.map_some'] at hfind1
  have hfind2 := find?_updateFS_self (updateFS fs j.fname JStatus.transcoding none t)
      j.fname JStatus.failed (some msg) t
  rw [hfind1, Option.map_some'] at hfind2
  have hm1 : getStatusF (updateStatusF e0.markers j.fname.path JStatus.transcoding none t).2 =
      some JStatus.transcoding :=
    getStatusF_update_of_some j.fname.path JStatus.transcoding none t hready
  refine ⟨?_, ?_, rfl, ?_, rfl⟩
  · unfold getStatusFS
    rw [hfind2]
    exact getStatusF_update_of_some j.fname.path JStatus.failed (some msg) t hm1
  · unfold errAtFS
    rw [hfind2]
    show currentErr (updateStatusF
        (updateStatusF e0.markers j.fname.path JStatus.transcoding none t).2
        j.fname.path JStatus.failed (some msg) t).2 = some msg
    rw [currentErr_update_of_some j.fname.path JStatus.failed (some msg) t hm1]
    simp [storedErr, hmsg]
  · exact ⟨_, List.mem_of_find?_eq_some hfind2, hfn.symm⟩

/-- Witness for the amended C8 at a one-file media root whose mkv file is
ready, with the encode raising a non-empty message. -/
theorem drain_encode_failure_witness :
    getStatusFS (processQueueStep false [xEntry] (EncodeOutcome.raised "boom") 7).fs
        { stem := "X", ext := ".mkv" } = some JStatus.failed ∧
      errAtFS (processQueueStep false [xEntry] (EncodeOutcome.raised "boom") 7).fs
        { stem := "X", ext := ".mkv" } = some "boom" :=
  ⟨(drain_encode_failure false [xEntry] 7 "boom"
      { name := "X", fname := { stem := "X", ext := ".mkv" }, status := JStatus.ready,
        size_bytes := 10, created_at := 1, error := none, metadata := none }
      (by decide) (by decide) (by decide)).1,
   (drain_encode_failure false [xEntry] 7 "boom"
      { name := "X", fname := { stem := "X", ext := ".mkv" }, status := JStatus.ready,
        size_bytes := 10, created_at := 1, error := none, metadata := none }
      (by decide) (by decide) (by decide)).2.1⟩

theorem find?_createMarkerFS_self (fs : FS) (n : FName) (st : JStatus)
    (md : Option MetaMap) (er : Option String) (t : Nat) :
    (createMarkerFS fs n st md er t).find? (fun e => decide (e.name = n)) =
      (fs.find? (fun e => decide (e.name = n))).map
        (fun e => { e with markers := createMarkerF e.markers n.path st md er t }) :=
  find?_editFS_self fs n _ (fun _e => rfl)

/-- C10: for a media file whose name does not match the `*.mkv` scan
pattern, create_marker still succeeds and get_status reports the created
status, yet list_jobs never returns a record for that file under any
filter, so get_next_ready never picks it and retry_job, retry_all_failed
and clear_jobs leave its marker untouched. -/
theorem non_mkv_invisible (fs : FS) (n : FName) (st : JStatus) (md : Option MetaMap)
    (er : Option String) (t : Nat) (e0 : Entry)
    (hnd : (fs.map (fun e => e.name)).Nodup) (he0 : e0 ∈ fs) (hname : e0.name = n)
    (hmkv : n.isMkv = false) :
    getStatusFS (createMarkerFS fs n st md er t) n = some st ∧
    (∀ filt j, j ∈ listJobs (createMarkerFS fs n st md er t) filt → j.fname ≠ n) ∧
    (∀ j, getNextReady (createMarkerFS fs n st md er t) = some j → j.fname ≠ n) ∧
    (∀ nm, getStatusFS (retryJob (createMarkerFS fs n st md er t) nm t).2 n = some st) ∧
    getStatusFS (retryAllFailed (createMarkerFS fs n st md er t) t).2 n = some st ∧
    (∀ filt, getStatusFS (clearJobs (createMarkerFS fs n st md er t) filt).2 n = some st) := by
  have hfind0 : fs.find? (fun x => decide (x.name = n)) = some e0 := by
    rw [← hname]
    exact find?_of_nodup_mem hnd he0
  have hfind' : (createMarkerFS fs n st md er t).find? (fun x => decide (x.name = n)) =
      some { e0 with markers := createMarkerF e0.markers n.path st md er t } := by
    rw [find?_createMarkerFS_self, hfind0, Option.map_some']
  have hb : ∀ filt j, j ∈ listJobs (createMarkerFS fs n st md er t) filt → j.fname ≠ n := by
    intro filt j hmem hEq
    obtain ⟨e2, he2, hjo2⟩ := mem_listJobs.mp hmem
    obtain ⟨hfn2, hm2, _, _⟩ := jobOf_some hjo2
    rw [hEq] at hfn2
    rw [← hfn2] at hm2
    rw [hmkv] at hm2
    cases hm2
  have hstat : getStatusFS (createMarkerFS fs n st md er t) n = some st := by
    unfold getStatusFS
    rw [hfind']
    exact getStatusF_create e0.markers n.path st md er t
  refine ⟨hstat, hb, ?_, ?_, ?_, ?_⟩
  · intro j hj
    exact hb (some JStatus.ready) j (mem_of_head?_eq _ _ hj)
  · intro nm
    unfold getStatusFS
    rw [show (retryJob (createMarkerFS fs n st md er t) nm t).2 =
        (retryGo (createMarkerFS fs n st md er t) t nm
          (listJobs (createMarkerFS fs n st md er t) (some JStatus.failed))).2 from rfl]
    rw [find?_retryGo_ne _ _ _ _ _ (fun j hj hEq => hb (some JStatus.failed) j hj hEq), hfind']
    exact getStatusF_create e0.markers n.path st md er t
  · unfold getStatusFS
    rw [show (retryAllFailed (createMarkerFS fs n st md er t) t).2 =
        (listJobs (createMarkerFS fs n st md er t) (some JStatus.failed)).foldl
          (fun s j => updateFS s j.fname JStatus.ready none t)
          (createMarkerFS fs n st md er t) from rfl]
    rw [find?_foldl_update_ne _ _ _ _ _ _
        (fun j hj hEq => hb (some JStatus.failed) j hj hEq), hfind']
    exact getStatusF_create e0.markers n.path st md er t
  · intro filt
    unfold getStatusFS
    rw [show (clearJobs (createMarkerFS fs n st md er t) filt).2 =
        (listJobs (createMarkerFS fs n st md er t) filt).foldl
          (fun s j => removeMarkersFS s j.fname)
          (createMarkerFS fs n st md er t) from rfl]
    rw [find?_foldl_clear_ne _ _ _
        (fun j hj hEq => hb filt j hj hEq), hfind']
    exact getStatusF_create e0.markers n.path st md er t

/-- Witness for C10 at a one-file media root holding `movie.avi`. -/
theorem non_mkv_invisible_witness :
    getStatusFS (createMarkerFS [aviEntry] { stem := "movie", ext := ".avi" }
        JStatus.ready none none 3) { stem := "movie", ext := ".avi" } =
      some JStatus.ready ∧
    getStatusFS (retryAllFailed (createMarkerFS [aviEntry] { stem := "movie", ext := ".avi" }
        JStatus.ready none none 3) 3).2 { stem := "movie", ext := ".avi" } =
      some JStatus.ready :=
  ⟨(non_mkv_invisible [aviEntry] { stem := "movie", ext := ".avi" } JStatus.ready none none 3
      aviEntry (by decide) (by decide) (by decide) (by decide)).1,
   (non_mkv_invisible [aviEntry] { stem := "movie", ext := ".avi" } JStatus.ready none none 3
      aviEntry (by decide) (by decide) (by decide) (by decide)).2.2.2.2.1⟩

-- Disc detection poller (src/riparr/detection/poller.py) and the callback
-- dispatch of DiscWatcher.start (src/riparr/detection/watcher.py).

/-- Insertion and removal events delivered by the detection backends. -/
inductive DiscEvent
  | inserted
  | removed
deriving DecidableEq

/-- Loop body of DevicePoller.poll for a single device, applied to the
sequence of probe results of the periodic `_check_disc` calls: emit an
insertion on a false-to-true transition of the remembered per-device
state, a removal on a true-to-false transition, and nothing when the
probe equals the remembered state; with `once = true` the loop returns
right after the first insertion. -/
def pollLoop (once : Bool) (prev : Bool) : List Bool → List DiscEvent
  | [] => []
  | p :: ps =>
    if p && !prev then
      DiscEvent.inserted :: (if once then [] else pollLoop once true ps)
    else if !p && prev then
      DiscEvent.removed :: pollLoop once false ps
    else
      pollLoop once prev ps

/-- DevicePoller.poll for a single device over a sequence of probed
states: the first probe initialises `_disc_states` before the loop (no
event is emitted for it), the remaining probes drive the transition
loop. -/
def pollRun (once : Bool) : List Bool → List DiscEvent
  | [] => []
  | init :: rest => pollLoop once init rest

theorem pollLoop_count_ins (ps : List Bool) (prev : Bool) :
    (pollLoop false prev ps).countP (fun ev => decide (ev = DiscEvent.inserted)) =
      ((prev :: ps).zip ps).countP (fun pr => !pr.1 && pr.2) := by
  induction ps generalizing prev with
  | nil => rfl
  | cons p ps ih =>
    cases prev <;> cases p <;>
      simp [pollLoop, List.zip_cons_cons, List.countP_cons, ih]

theorem pollLoop_count_rem (ps : List Bool) (prev : Bool) :
    (pollLoop false prev ps).countP (fun ev => decide (ev = DiscEvent.removed)) =
      ((prev :: ps).zip ps).countP (fun pr => pr.1 && !pr.2) := by
  induction ps generalizing prev with
  | nil => rfl
  | cons p ps ih =>
    cases prev <;> cases p <;>
      simp [pollLoop, List.zip_cons_cons, List.countP_cons, ih]

/-- C6 (Polling watcher dedup): over any probe sequence with the first
probe taken during loop initialisation, the polling backend emits exactly
one insertion per absent-to-present transition of consecutive probes and
exactly one removal per present-to-absent transition; in particular the
probe sequence absent, absent, present, present, absent yields exactly
the event list insertion then removal. -/
theorem poll_dedup (probes : List Bool) :
    ((pollRun false probes).countP (fun ev => decide (ev = DiscEvent.inserted)) =
      (probes.zip probes.tail).countP (fun pr => !pr.1 && pr.2)) ∧
    ((pollRun false probes).countP (fun ev => decide (ev = DiscEvent.removed)) =
      (probes.zip probes.tail).countP (fun pr => pr.1 && !pr.2)) ∧
    pollRun false [false, false, true, true, false] =
      [DiscEvent.inserted, DiscEvent.removed] := by
  refine ⟨?_, ?_, rfl⟩
  · cases probes with
    | nil => rfl
    | cons init rest => exact pollLoop_count_ins rest init
  · cases probes with
    | nil => rfl
    | cons init rest => exact pollLoop_count_rem rest init

/-- Style of a Python call site invoking one of the async callbacks given
to DiscWatcher.start: either the call awaits the returned coroutine to
completion, or it is a plain call whose return value is discarded. -/
inductive CallStyle
  | awaitedCall
  | plainCall
deriving DecidableEq

/-- One invocation of an insertion or removal callback, as performed by a
detection backend. -/
structure CbCall where
  kind : DiscEvent
  device : String
  style : CallStyle
deriving DecidableEq

/-- Python coroutine semantics: the body of an async function runs only
when the returned coroutine is awaited; a plain call of an async function
builds a coroutine object and discards it without ever running the
body. -/
def callBodyRuns (c : CbCall) : Bool :=
  match c.style with
  | CallStyle.awaitedCall => true
  | CallStyle.plainCall => false

/-- Callback invocations performed by the polling backend under
DiscWatcher.start: watcher.py passes the async on_insert/on_remove
callbacks directly to DevicePoller.poll, and poller.py invokes them as
the plain calls `on_insert(device)` and `on_remove(device)` with no
await. -/
def pollerCalls (device : String) (once : Bool) (probes : List Bool) : List CbCall :=
  (pollRun once probes).map
    (fun ev => { kind := ev, device := device, style := CallStyle.plainCall })

/-- Callback invocation performed by the udev branch of DiscWatcher.start:
the async callbacks are wrapped as `anyio.from_thread.run(on_insert,
device)`, which awaits the coroutine to completion on the event loop. -/
def udevBridgeCall (device : String) (ev : DiscEvent) : CbCall :=
  { kind := ev, device := device, style := CallStyle.awaitedCall }

/-- C7: under the polling backend one insertion event is delivered for
the probe sequence absent then present, but the async callback is invoked
as a plain un-awaited call, so its body never executes; the udev branch
by contrast awaits the wrapped callback. This exhibits the divergence
from the specified behaviour that callbacks are awaited to completion
under either backend. -/
theorem polling_callback_body_never_runs :
    (pollerCalls "/dev/sr0" false [false, true]).length = 1 ∧
      (pollerCalls "/dev/sr0" false [false, true]).countP callBodyRuns = 0 ∧
      callBodyRuns (udevBridgeCall "/dev/sr0" DiscEvent.inserted) = true :=
  ⟨rfl, rfl, rfl⟩

-- Rip concurrency resource of QueueManager (src/riparr/queue/manager.py):
-- the semaphore created as asyncio.Semaphore(settings.max_concurrent_rips)
-- and the `async with self._rip_semaphore` block of _rip_titles.

/-- Position of one process_disc task relative to the rip semaphore:
before the `async with self._rip_semaphore` of _rip_titles, inside the
rip phase, or after the context manager released the slot. -/
inductive RipPc
  | outside
  | ripping
  | released
deriving DecidableEq

/-- State of the rip concurrency resource: the semaphore counter and the
position of each concurrent process_disc task. -/
structure RipSys where
  avail : Nat
  tasks : List RipPc
deriving DecidableEq

/-- Number of tasks currently inside the rip phase. -/
def inFlight (s : RipSys) : Nat :=
  s.tasks.countP (fun pc => decide (pc = RipPc.ripping))

/-- Initial state: the semaphore holds `limit` slots and each of the `n`
concurrent tasks is before its acquire. -/
def ripInit (limit n : Nat) : RipSys :=
  { avail := limit, tasks := List.replicate n RipPc.outside }

/-- Interleaving steps of the `async with self._rip_semaphore` block: a
task enters the rip phase only when the semaphore counter is positive,
decrementing it; leaving the rip phase, whether the title loop returned
normally or raised (`ok` records which), always increments the counter
again, because the async context manager releases on every exit path. -/
inductive RipStep : RipSys → RipSys → Prop
  | acquire (s : RipSys) (i : Nat) (h : s.tasks.get? i = some RipPc.outside)
      (ha : 0 < s.avail) :
      RipStep s { avail := s.avail - 1, tasks := s.tasks.set i RipPc.ripping }
  | finish (s : RipSys) (i : Nat) (ok : Bool)
      (h : s.tasks.get? i = some RipPc.ripping) :
      RipStep s { avail := s.avail + 1, tasks := s.tasks.set i RipPc.released }

/-- Reachability under the interleaving semantics. -/
inductive RipReach (init : RipSys) : RipSys → Prop
  | refl : RipReach init init
  | step {s s2 : RipSys} : RipReach init s → RipStep s s2 → RipReach init s2

theorem countP_set {α : Type} (p : α → Bool) (l : List α) (i : Nat) (a b : α)
    (h : l.get? i = some a) :
    (l.set i b).countP p + (if p a then 1 else 0) =
      l.countP p + (if p b then 1 else 0) := by
  induction l generalizing i with
  | nil => simp at h
  | cons x xs ih =>
    cases i with
    | zero =>
      simp only [List.get?] at h
      rw [Option.some.injEq] at h
      subst h
      simp only [List.set, List.countP_cons]
      split_ifs <;> omega
    | succ i =>
      simp only [List.get?] at h
      have hrec := ih i h
      simp only [List.set, List.countP_cons]
      split_ifs at hrec ⊢ <;> omega

theorem inFlight_ripInit (limit n : Nat) : inFlight (ripInit limit n) = 0 := by
  unfold inFlight ripInit
  induction n with
  | zero => rfl
  | succ n ih => simp [List.replicate_succ, List.countP_cons, ih]

theorem rip_step_preserves (limit : Nat) {s s2 : RipSys} (hstep : RipStep s s2)
    (ih : s.avail + inFlight s = limit) : s2.avail + inFlight s2 = limit := by
  cases hstep with
  | acquire i hi ha =>
    have hc := countP_set (fun pc => decide (pc = RipPc.ripping))
      s.tasks i RipPc.outside RipPc.ripping hi
    have hd1 : decide (RipPc.outside = RipPc.ripping) = false := by decide
    have hd2 : decide (RipPc.ripping = RipPc.ripping) = true := by decide
    simp [hd1, hd2] at hc
    unfold inFlight at ih ⊢
    show s.avail - 1 +
      (s.tasks.set i RipPc.ripping).countP (fun pc => decide (pc = RipPc.ripping)) = limit
    omega
  | finish i ok hi =>
    have hc := countP_set (fun pc => decide (pc = RipPc.ripping))
      s.tasks i RipPc.ripping RipPc.released hi
    have hd1 : decide (RipPc.ripping = RipPc.ripping) = true := by decide
    have hd2 : decide (RipPc.released = RipPc.ripping) = false := by decide
    simp [hd1, hd2] at hc
    unfold inFlight at ih ⊢
    show s.avail + 1 +
      (s.tasks.set i RipPc.released).countP (fun pc => decide (pc = RipPc.ripping)) = limit
    omega

theorem rip_invariant (limit n : Nat) (s : RipSys)
    (h : RipReach (ripInit limit n) s) : s.avail + inFlight s = limit := by
  induction h with
  | refl =>
    rw [inFlight_ripInit]
    rfl
  | step hreach hstep ih => exact rip_step_preserves limit hstep ih

/-- C9 (Rip concurrency bound): with the rip limit set to 1, in every
state reachable by any interleaving of any number of concurrent
process_disc tasks, at most one task is inside the rip phase, and the
semaphore count plus the number of in-flight rips is exactly 1 — the
slot is returned on every exit path of the rip phase, whether the titles
succeeded or raised. -/
theorem rip_concurrency_bound (n : Nat) (s : RipSys)
    (h : RipReach (ripInit 1 n) s) :
    inFlight s ≤ 1 ∧ s.avail + inFlight s = 1 := by
  have hinv := rip_invariant 1 n s h
  exact ⟨by omega, hinv⟩

/-- Witness for C9: the state in which the first of two tasks has
acquired the slot and is ripping. -/
theorem rip_concurrency_bound_witness :
    inFlight { avail := 0, tasks := [RipPc.ripping, RipPc.outside] } ≤ 1 ∧
      ({ avail := 0, tasks := [RipPc.ripping, RipPc.outside] } : RipSys).avail +
        inFlight { avail := 0, tasks := [RipPc.ripping, RipPc.outside] } = 1 :=
  rip_concurrency_bound 2 _
    (RipReach.step RipReach.refl (RipStep.acquire (ripInit 1 2) 0 rfl (by decide)))
